import Mathlib

set_option linter.unusedVariables false

/-! Shallow embedding of the native window helper (native_window.cpp).

Window titles and registered window names are modelled as lists of
unsigned byte values (the char values produced by GetWindowTextA):
32 is the space, 45 the ASCII dash, 150 the Windows-1252 en dash
(the value -106 as a signed char), 58 the colon and 92 the backslash.
A null char pointer is modelled as Option.none, a C string as some list
of its bytes. Window handles (HWND) are modelled as Nat with 0 for the
null handle, the display context (HDC) as Nat with 0 for null. -/

/-- The byte is one of the two dash values the matcher accepts:
45 is the ASCII dash, 150 is the Windows-1252 en dash (compared as
-106 through a signed char in the C source). -/
def dashChar (c : Nat) : Bool := c == 45 || c == 150

/-- Embeds the loop of isLastPartEqualTo in native_window.cpp lines 29-35:
walk every adjacent pair (source[i], source[i+1]) carrying the loop index i
and the accumulator startPos; on a dash followed by a space the accumulator
becomes i + 2, and the final accumulator is returned. -/
def lastDelimGo : List Nat → Nat → Nat → Nat
  | c :: s :: rest, i, acc =>
      lastDelimGo (s :: rest) (i + 1) (if dashChar c && s == 32 then i + 2 else acc)
  | _, _, acc => acc

/-- The value of startPos after the scan loop of isLastPartEqualTo:
the index just past the last "dash space" pair, or 0 if there is none. -/
def lastDelimStart (src : List Nat) : Nat := lastDelimGo src 0 0

/-- Embeds isLastPartEqualTo (native_window.cpp lines 24-49). After the
scan loop the C code requires startPos > 0 and
srcLength - startPos == targetLength and then compares
targetName[i] with source[i + startPos] for every i < targetLength;
given the length guard that elementwise loop is exactly equality of
the dropped suffix with the target, which is how it is written here. -/
def _isLastPartEqualTo (src tgt : List Nat) : Bool :=
  let startPos := lastDelimStart src
  if 0 < startPos ∧ src.length - startPos = tgt.length then
    List.drop startPos src == tgt
  else false

/-- The three byte window "space dash space" scan shared by both loops of
onlyCompareLastPart (native_window.cpp lines 56-69): the C loops test
positions (i-1, i, i+1) for every i from 1 to length-2, which visits
exactly every adjacent triple of the list. -/
def containsSpaceDashSpace : List Nat → Bool
  | a :: b :: c :: rest =>
      (a == 32 && dashChar b && c == 32) || containsSpaceDashSpace (b :: c :: rest)
  | _ => false

/-- Embeds onlyCompareLastPart (native_window.cpp lines 52-71): returns
false as soon as the target name contains a " - " triple, then returns
whether the source title contains one. -/
def _onlyCompareLastPart (src tgt : List Nat) : Bool :=
  if containsSpaceDashSpace tgt then false
  else containsSpaceDashSpace src

/-- Embeds a C strncmp style check that the haystack starts with the
needle, used to model strstr. -/
def beginsWith : List Nat → List Nat → Bool
  | [], _ => true
  | _ :: _, [] => false
  | a :: as, b :: bs => a == b && beginsWith as bs

/-- Embeds strstr(hay, needle) != 0 from the default matching branch
(native_window.cpp line 107): scan every suffix of the haystack for the
needle as a leading segment. -/
def strstrB (needle : List Nat) : List Nat → Bool
  | [] => beginsWith needle []
  | c :: rest => beginsWith needle (c :: rest) || strstrB needle rest

/-- Embeds the path detection of native_window.cpp line 89:
windowTitle[1] == ':' && windowTitle[2] == '\\'. The getD default 0
models the NUL terminator read when the title is shorter; the callers
only pass titles of length above 2 where all reads are in bounds. -/
def pathLike (title : List Nat) : Bool :=
  title.getD 1 0 == 58 && title.getD 2 0 == 92

/-- Embeds the per window matching decision of the enumeration callback
(native_window.cpp lines 89-109), with alwaysMatchEqual the global
_alwaysMatchEqual flag: the path branch demands full equality, the
delimiter branch delegates to isLastPartEqualTo, and the default branch
is either full equality (strict mode) or a strstr containment test. -/
def windowTitleMatches (alwaysMatchEqual : Bool) (title nm : List Nat) : Bool :=
  if pathLike title then
    title == nm
  else if _onlyCompareLastPart title nm then
    _isLastPartEqualTo title nm
  else if alwaysMatchEqual then
    title == nm
  else
    strstrB nm title

/-- One top level OS window as seen by the enumeration: its handle, its
title bytes and its visibility flag. -/
structure Window where
  handle : Nat
  title : List Nat
  visible : Bool
deriving DecidableEq, Repr

/-- Embeds the filter plus match of one callback invocation
(native_window.cpp lines 77-110): GetWindowTextLengthA must exceed 2,
the window must be visible (the written > 1 check is implied by the
length above 2), and the title must satisfy the matching policy. -/
def windowMatched (cfg : Bool) (nm : List Nat) (win : Window) : Bool :=
  decide (2 < win.title.length) && win.visible && windowTitleMatches cfg win.title nm

/-- Embeds one EnumWindows pass (native_window.cpp lines 74-119 and the
call at line 148): windows are visited in list order; the first matched
window stops the enumeration (the callback returns 0) and its handle is
the result. The second component records the windows actually visited,
so that the early exit is observable in the model. -/
def enumWindowsPass (cfg : Bool) (nm : List Nat) : List Window → Option Nat × List Window
  | [] => (none, [])
  | win :: rest =>
    if windowMatched cfg nm win then (some win.handle, [win])
    else
      let r := enumWindowsPass cfg nm rest
      (r.1, win :: r.2)

/-- One entry of the _windows[1000] array: the registered name pointer
(none models a null pointer) and the cached handle (0 models null). -/
structure Slot where
  name : Option (List Nat) := none
  handle : Nat := 0
deriving DecidableEq, Repr

/-- The mutable globals of native_window.cpp: the _windows array (only
indices 0 to 999 are ever read), the _alwaysMatchEqual flag and the
cached _mainDisplay context (0 models null). -/
structure NWState where
  slots : Nat → Slot := fun _ => {}
  alwaysMatchEqual : Bool := false
  mainDisplay : Nat := 0

/-- The ambient OS at one call: the list of top level windows in
enumeration order, the context GetDC(0) would hand out now, and oracles
for the remaining OS calls the facade forwards to. -/
structure World where
  windows : List Window := []
  freshDisplay : Nat := 1
  foreground : Nat := 0
  cursorPos : Int × Int := (0, 0)
  rects : Nat → Int × Int × Int × Int := fun _ => (0, 0, 0, 0)
  pixel : Int → Int → Nat := fun _ _ => 0
  clientToScreen : Nat → Int × Int → Int × Int := fun _ p => p
  screenToClient : Nat → Int × Int → Int × Int := fun _ p => p
  setFgOk : Nat → Bool := fun _ => true
  screen : Int → Int → Nat := fun _ _ => 0

/-- Embeds IsWindow(h): the handle currently belongs to a live window. -/
def World.isWindow (w : World) (h : Nat) : Bool :=
  w.windows.any (fun win => win.handle == h)

/-- The outcome of one getWindowHandle call: the returned handle (0 for
null), the globals afterwards, and how many EnumWindows passes ran
(0 or 1), which the temporal claims are about. -/
structure ResolveOut where
  handle : Nat
  state : NWState
  enumPasses : Nat

/-- Embeds getWindowHandle (native_window.cpp lines 122-165): range check
to [0,999], fast path through a live cached handle, otherwise clear a
stale cache and rotate the cached display (ReleaseDC + GetDC) when one is
held, bail out on a null name, and finally run one EnumWindows pass whose
match, if any, is stored back into the slot. -/
def getWindowHandle (w : World) (st : NWState) (windowID : Int) : ResolveOut :=
  if windowID < 0 ∨ windowID > 999 then ⟨0, st, 0⟩
  else
    let id := windowID.toNat
    let helper := st.slots id
    if helper.handle != 0 && w.isWindow helper.handle then ⟨helper.handle, st, 0⟩
    else
      let st1 :=
        if helper.handle != 0 then
          { st with
            slots := fun j => if j = id then { helper with handle := 0 } else st.slots j,
            mainDisplay := if st.mainDisplay ≠ 0 then w.freshDisplay else st.mainDisplay }
        else st
      match helper.name with
      | none => ⟨0, st1, 0⟩
      | some nm =>
        match (enumWindowsPass st.alwaysMatchEqual nm w.windows).1 with
        | some hFound =>
          ⟨hFound,
           { st1 with slots := fun j => if j = id then ⟨some nm, hFound⟩ else st1.slots j },
           1⟩
        | none => ⟨0, st1, 1⟩

/-- Embeds initWindow (native_window.cpp lines 261-270): range check to
[0,99], then store the name pointer (possibly null) and clear the cached
handle. -/
def initWindow (st : NWState) (windowID : Int) (windowName : Option (List Nat)) :
    Bool × NWState :=
  if windowID < 0 ∨ windowID > 99 then (false, st)
  else
    (true,
     { st with
       slots := fun j => if j = windowID.toNat then ⟨windowName, 0⟩ else st.slots j })

/-- Embeds initConfig (native_window.cpp lines 272-276) restricted to the
matching flag; the print callback is diagnostic only. -/
def initConfig (st : NWState) (alwaysMatchEqual : Bool) : NWState :=
  { st with alwaysMatchEqual := alwaysMatchEqual }

/-- The magic invalid marker 999999999 used by the facade. -/
def INVALID_VALUE : Int := 999999999

/-- The unsigned variant 999999999ul of the invalid marker. -/
def INVALID_VALUE_UL : Nat := 999999999

/-- Embeds isWindowOpen (native_window.cpp lines 278-281). -/
def isWindowOpen (w : World) (st : NWState) (id : Int) : Bool × NWState :=
  let r := getWindowHandle w st id
  (r.handle != 0, r.state)

/-- Embeds hasWindowFocus (native_window.cpp lines 283-292). -/
def hasWindowFocus (w : World) (st : NWState) (id : Int) : Bool × NWState :=
  let r := getWindowHandle w st id
  if r.handle != 0 then (r.handle == w.foreground, r.state) else (false, r.state)

/-- Embeds setWindowFocus (native_window.cpp lines 294-302). -/
def setWindowFocus (w : World) (st : NWState) (id : Int) : Bool × NWState :=
  let r := getWindowHandle w st id
  if r.handle != 0 then (w.setFgOk r.handle, r.state) else (false, r.state)

/-- Embeds getWindowBounds (native_window.cpp lines 307-317): the RECT is
modelled as (left, top, right, bottom). -/
def getWindowBounds (w : World) (st : NWState) (id : Int) :
    (Int × Int × Int × Int) × NWState :=
  let r := getWindowHandle w st id
  if r.handle != 0 then (w.rects r.handle, r.state)
  else ((INVALID_VALUE, INVALID_VALUE, INVALID_VALUE, INVALID_VALUE), r.state)

/-- Embeds closeWindow (native_window.cpp lines 335-344); the WM_CLOSE
message itself is outside the model. -/
def closeWindow (w : World) (st : NWState) (id : Int) : Bool × NWState :=
  let r := getWindowHandle w st id
  if r.handle != 0 then (true, r.state) else (false, r.state)

/-- Embeds getPixelOfWindow (native_window.cpp lines 384-396): on success
ClientToScreen then GetPixel on the cached main display, which is
acquired here when not yet held. -/
def getPixelOfWindow (w : World) (st : NWState) (id : Int) (x y : Int) :
    Nat × NWState :=
  let r := getWindowHandle w st id
  if r.handle != 0 then
    let p := w.clientToScreen r.handle (x, y)
    let st2 :=
      { r.state with
        mainDisplay := if r.state.mainDisplay = 0 then w.freshDisplay else r.state.mainDisplay }
    (w.pixel p.1 p.2, st2)
  else (INVALID_VALUE_UL, r.state)

/-- Embeds getWindowMousePos (native_window.cpp lines 405-415): the POINT
is modelled as a pair (x, y). -/
def getWindowMousePos (w : World) (st : NWState) (id : Int) :
    (Int × Int) × NWState :=
  let r := getWindowHandle w st id
  if r.handle != 0 then
    let p := w.screenToClient r.handle w.cursorPos
    (p, r.state)
  else ((INVALID_VALUE, INVALID_VALUE), r.state)

/-- Embeds setWindowMousePos (native_window.cpp lines 422-433). -/
def setWindowMousePos (w : World) (st : NWState) (id : Int) (x y : Int) :
    Bool × NWState :=
  let r := getWindowHandle w st id
  if r.handle != 0 then (true, r.state) else (false, r.state)

/-- The four bytes GetDIBits writes for one captured pixel in 32 bit
BI_RGB format, from the packed 0x00bbggrr colour of the screen oracle. -/
def pixBytes (c : Nat) : List Nat :=
  [c % 256, c / 256 % 256, c / 65536 % 256, 0]

/-- The bytes of one captured row: width pixels read left to right from
screen row y + row of the blitted rectangle. -/
def captureRow (w : World) (x y : Int) (width : Nat) (row : Nat) : List Nat :=
  (List.range width).flatMap (fun col => pixBytes (w.screen (x + Int.ofNat col) (y + Int.ofNat row)))

/-- Embeds getImage (native_window.cpp lines 182-212): BitBlt copies the
width by height block at (x, y) into a bitmap and GetDIBits with the
negative biHeight reads it back row by row top down into one
malloc(height * width * 4) buffer. -/
def getImage (w : World) (x y : Int) (width height : Nat) : List Nat :=
  (List.range height).flatMap (fun row => captureRow w x y width row)

/-- The rows of the same captured rectangle in the natural bottom up
storage order of a positive height BI_RGB bitmap: row index r of the
stored bitmap holds screen row height - 1 - r. -/
def dibBottomUpRows (w : World) (x y : Int) (width height : Nat) : List (List Nat) :=
  (List.range height).map (fun r => captureRow w x y width (height - 1 - r))

/-- Modelled from the spec wording of claim C2: the substring of the
title after the last " - " (space dash space, dash or en dash)
separator, or none when the title has no such separator. This is the
spec side reading that the counterexample compares against the code. -/
def suffixAfterLastSpaceDashSpace : List Nat → Option (List Nat)
  | a :: b :: c :: rest =>
    match suffixAfterLastSpaceDashSpace (b :: c :: rest) with
    | some s => some s
    | none => if a == 32 && dashChar b && c == 32 then some rest else none
  | _ => none

/-- The two byte "dash space" scan used to characterise the loop of
isLastPartEqualTo: true iff some adjacent pair of the list is a dash
(or en dash) followed by a space. -/
def containsDashSpace : List Nat → Bool
  | c :: s :: rest => (dashChar c && s == 32) || containsDashSpace (s :: rest)
  | _ => false

/-- The offset, within the list, of the first byte after the last
"dash space" pair, used to characterise lastDelimGo. -/
def relLast : List Nat → Option Nat
  | c :: s :: rest =>
    match relLast (s :: rest) with
    | some k => some (k + 1)
    | none => if dashChar c && s == 32 then some 2 else none
  | _ => none

/-- The all zero initial globals: every slot has a null name and a null
handle, substring matching mode, no display held. -/
def emptyState : NWState := {}

/-- A world with one visible window "AAA" with handle 5, used by the
witnesses. -/
def oneWindowWorld : World :=
  { windows := [⟨5, [65, 65, 65], true⟩], freshDisplay := 4 }

/-- A state whose slot 0 holds name "A" and a cached handle 7 that is
dead in oneWindowWorld, with a held display 3, used by the witnesses. -/
def staleState : NWState :=
  { slots := fun j => if j = 0 then ⟨some [65], 7⟩ else {},
    mainDisplay := 3 }

/-! Helper lemmas about the matching primitives. -/

/-- The scan loop of isLastPartEqualTo computes, relative to the start
index i, the offset past the last dash space pair, keeping the
accumulator when there is none. -/
theorem lastDelimGo_spec (l : List Nat) : ∀ i acc,
    lastDelimGo l i acc =
      (match relLast l with
       | some k => i + k
       | none => acc) := by
  induction l with
  | nil => intro i acc; rfl
  | cons c tail ih =>
    intro i acc
    cases tail with
    | nil => rfl
    | cons s rest =>
      simp only [lastDelimGo]
      rw [ih]
      cases hr : relLast (s :: rest) with
      | some k => simp only [relLast, hr]; ring
      | none =>
        simp only [relLast, hr]
        cases hd : (dashChar c && s == 32) <;> simp [hd]

/-- A list has no dash space pair exactly when the last offset scan
comes back empty. -/
theorem contains_eq_false_iff_relLast_none (l : List Nat) :
    containsDashSpace l = false ↔ relLast l = none := by
  induction l with
  | nil => simp [containsDashSpace, relLast]
  | cons c tail ih =>
    cases tail with
    | nil => simp [containsDashSpace, relLast]
    | cons s rest =>
      simp only [containsDashSpace, relLast, Bool.or_eq_false_iff]
      cases hr : relLast (s :: rest) with
      | some k =>
        rw [hr] at ih
        simp only [hr]
        constructor
        · intro h
          exact absurd (ih.mp h.2) (by simp)
        · intro h
          exact absurd h (by simp)
      | none =>
        rw [hr] at ih
        simp only [hr]
        cases hd : (dashChar c && s == 32) <;> simp [hd, ih]

/-- Appending a final dash space pair followed by a clean tail pins the
last offset scan to just past that pair. -/
theorem relLast_append (pre : List Nat) (d : Nat) (rest : List Nat)
    (hd : dashChar d = true) (hrest : containsDashSpace (32 :: rest) = false) :
    relLast (pre ++ d :: 32 :: rest) = some (pre.length + 2) := by
  induction pre with
  | nil =>
    have h0 : relLast (32 :: rest) = none :=
      (contains_eq_false_iff_relLast_none _).mp hrest
    simp [relLast, h0, hd]
  | cons a pre ih =>
    cases hp : pre ++ d :: 32 :: rest with
    | nil => simp at hp
    | cons x l =>
      have hx : relLast (x :: l) = some (pre.length + 2) := hp ▸ ih
      simp only [List.cons_append, hp, relLast, hx, List.length_cons]

/-- A successful last offset scan decomposes the list at the last dash
space pair, with a clean remainder. -/
theorem relLast_some_decomp (l : List Nat) : ∀ k, relLast l = some k →
    ∃ pre d rest, dashChar d = true ∧ containsDashSpace (32 :: rest) = false ∧
      l = pre ++ d :: 32 :: rest ∧ k = pre.length + 2 := by
  induction l with
  | nil => intro k h; simp [relLast] at h
  | cons c tail ih =>
    intro k h
    cases tail with
    | nil => simp [relLast] at h
    | cons s rest =>
      simp only [relLast] at h
      cases hr : relLast (s :: rest) with
      | some k2 =>
        rw [hr] at h
        simp only [Option.some.injEq] at h
        obtain ⟨pre, d, tl, hd, hcr, heq, hk⟩ := ih k2 hr
        refine ⟨c :: pre, d, tl, hd, hcr, by simp [heq], ?_⟩
        rw [← h, hk]
        simp [List.length_cons]
      | none =>
        rw [hr] at h
        by_cases hd : (dashChar c && s == 32) = true
        · rw [if_pos hd] at h
          simp only [Option.some.injEq] at h
          simp only [Bool.and_eq_true, beq_iff_eq] at hd
          have hcr : containsDashSpace (32 :: rest) = false := by
            rw [← hd.2]
            exact (contains_eq_false_iff_relLast_none _).mpr hr
          refine ⟨[], c, rest, hd.1, hcr, by simp [hd.2], ?_⟩
          rw [← h]
          rfl
        · rw [if_neg hd] at h
          cases h

/-- Dropping the shared part plus the two delimiter bytes lands exactly
on the remainder. -/
theorem drop_pre_two (pre : List Nat) (d s : Nat) (rest : List Nat) :
    List.drop (pre.length + 2) (pre ++ d :: s :: rest) = rest := by
  have h1 : pre ++ d :: s :: rest = (pre ++ [d, s]) ++ rest := by simp
  have h2 : pre.length + 2 = (pre ++ [d, s]).length := by simp
  rw [h1, h2, List.drop_left]

/-- Characterisation of isLastPartEqualTo: it accepts exactly when the
source splits as anything, then a dash (or en dash) and a space, then
the target, with no further dash space pair from that space onwards;
that is, it compares the target against the substring after the last
occurrence of a dash followed by a space. -/
theorem isLastPart_iff (src tgt : List Nat) :
    _isLastPartEqualTo src tgt = true ↔
      ∃ pre d, dashChar d = true ∧ containsDashSpace (32 :: tgt) = false ∧
        src = pre ++ d :: 32 :: tgt := by
  constructor
  · intro h
    simp only [_isLastPartEqualTo] at h
    by_cases hc : 0 < lastDelimStart src ∧ src.length - lastDelimStart src = tgt.length
    · rw [if_pos hc] at h
      have hdrop : List.drop (lastDelimStart src) src = tgt := eq_of_beq h
      cases hr : relLast src with
      | none =>
        have h0 : lastDelimStart src = 0 := by
          rw [lastDelimStart, lastDelimGo_spec, hr]
        exact absurd hc.1 (by simp [h0])
      | some k =>
        have hk : lastDelimStart src = k := by
          rw [lastDelimStart, lastDelimGo_spec, hr]
          simp
        obtain ⟨pre, d, rest, hd, hcr, heq, hkk⟩ := relLast_some_decomp src k hr
        have hrest : List.drop k src = rest := by
          rw [heq, hkk]
          exact drop_pre_two pre d 32 rest
        have htr : rest = tgt := by rw [← hdrop, hk, hrest]
        exact ⟨pre, d, hd, htr ▸ hcr, htr ▸ heq⟩
    · rw [if_neg hc] at h
      cases h
  · rintro ⟨pre, d, hd, hcr, rfl⟩
    have hr : relLast (pre ++ d :: 32 :: tgt) = some (pre.length + 2) :=
      relLast_append pre d tgt hd hcr
    have hk : lastDelimStart (pre ++ d :: 32 :: tgt) = pre.length + 2 := by
      rw [lastDelimStart, lastDelimGo_spec, hr]
      simp
    have hlen : (pre ++ d :: 32 :: tgt).length - (pre.length + 2) = tgt.length := by
      simp [List.length_append, List.length_cons]
      ring_nf
      exact Nat.add_sub_cancel_left ..
    simp only [_isLastPartEqualTo, hk]
    rw [if_pos ⟨Nat.succ_pos _, hlen⟩]
    rw [drop_pre_two]
    exact beq_self_eq_true tgt

/-- The leading segment check accepts exactly the haystacks that extend
the needle. -/
theorem beginsWith_iff (n : List Nat) : ∀ h : List Nat,
    beginsWith n h = true ↔ ∃ t, h = n ++ t := by
  induction n with
  | nil =>
    intro h
    simp only [beginsWith, List.nil_append]
    exact ⟨fun _ => ⟨h, rfl⟩, fun _ => trivial⟩
  | cons a as ih =>
    intro h
    cases h with
    | nil =>
      simp only [beginsWith]
      constructor
      · intro hfalse; cases hfalse
      · rintro ⟨t, ht⟩; cases ht
    | cons b bs =>
      simp only [beginsWith, Bool.and_eq_true, beq_iff_eq, ih]
      constructor
      · rintro ⟨rfl, t, rfl⟩
        exact ⟨t, rfl⟩
      · rintro ⟨t, ht⟩
        rw [List.cons_append] at ht
        cases ht
        exact ⟨rfl, t, rfl⟩

/-- Characterisation of the strstr model: the needle is found exactly
when the haystack splits around a contiguous copy of it. -/
theorem strstrB_iff (n : List Nat) : ∀ h : List Nat,
    strstrB n h = true ↔ ∃ pre post, h = pre ++ n ++ post := by
  intro h
  induction h with
  | nil =>
    simp only [strstrB, beginsWith_iff]
    constructor
    · rintro ⟨t, ht⟩
      exact ⟨[], t, by simpa using ht⟩
    · rintro ⟨pre, post, hp⟩
      have h3 : pre = [] ∧ n = [] ∧ post = [] := by simpa using hp.symm
      exact ⟨[], by simp [h3.2.1]⟩
  | cons c rest ih =>
    simp only [strstrB, Bool.or_eq_true, beginsWith_iff, ih]
    constructor
    · rintro (⟨t, ht⟩ | ⟨pre, post, hp⟩)
      · exact ⟨[], t, by simpa using ht⟩
      · exact ⟨c :: pre, post, by simp [hp]⟩
    · rintro ⟨pre, post, hp⟩
      cases pre with
      | nil =>
        left
        exact ⟨post, by simpa using hp⟩
      | cons p ps =>
        right
        rw [List.cons_append, List.cons_append] at hp
        cases hp
        exact ⟨ps, post, rfl⟩

/-- One enumeration pass that found a handle visited exactly the
windows up to and including the first filtered match, and every earlier
window failed the filter or the matching policy. -/
theorem enumPass_some_spec (cfg : Bool) (nm : List Nat) :
    ∀ (ws : List Window) (h : Nat) (visited : List Window),
    enumWindowsPass cfg nm ws = (some h, visited) →
    ∃ pre win post, ws = pre ++ win :: post ∧ visited = pre ++ [win] ∧
      win.handle = h ∧ windowMatched cfg nm win = true ∧
      ∀ w2 ∈ pre, windowMatched cfg nm w2 = false := by
  intro ws
  induction ws with
  | nil => intro h v heq; cases heq
  | cons win rest ih =>
    intro h v heq
    simp only [enumWindowsPass] at heq
    by_cases hm : windowMatched cfg nm win = true
    · rw [if_pos hm] at heq
      obtain ⟨h1, h2⟩ := Prod.mk.injEq .. ▸ heq
      cases h1
      exact ⟨[], win, rest, rfl, h2.symm, rfl, hm, by simp⟩
    · rw [if_neg hm] at heq
      rcases hrr : enumWindowsPass cfg nm rest with ⟨r1, r2⟩
      rw [hrr] at heq
      simp only [Prod.mk.injEq] at heq
      obtain ⟨h1, h2⟩ := heq
      obtain ⟨pre, w2, post, hws, hv, hh, hm2, hpre⟩ := ih h r2 (by rw [hrr, h1])
      refine ⟨win :: pre, w2, post, by simp [hws], ?_, hh, hm2, ?_⟩
      · rw [← h2, hv]; rfl
      · intro w3 hw3
        rcases List.mem_cons.mp hw3 with rfl | hw3m
        · exact Bool.eq_false_iff.mpr hm
        · exact hpre w3 hw3m

/-- One enumeration pass that found nothing visited every window, and
none of them passed the filter and the matching policy. -/
theorem enumPass_none_spec (cfg : Bool) (nm : List Nat) :
    ∀ (ws : List Window) (visited : List Window),
    enumWindowsPass cfg nm ws = (none, visited) →
    visited = ws ∧ ∀ w2 ∈ ws, windowMatched cfg nm w2 = false := by
  intro ws
  induction ws with
  | nil =>
    intro v heq
    cases heq
    exact ⟨rfl, by simp⟩
  | cons win rest ih =>
    intro v heq
    simp only [enumWindowsPass] at heq
    by_cases hm : windowMatched cfg nm win = true
    · rw [if_pos hm] at heq
      cases heq
    · rw [if_neg hm] at heq
      rcases hrr : enumWindowsPass cfg nm rest with ⟨r1, r2⟩
      rw [hrr] at heq
      simp only [Prod.mk.injEq] at heq
      obtain ⟨h1, h2⟩ := heq
      obtain ⟨hv, hall⟩ := ih r2 (by rw [hrr, h1])
      refine ⟨by rw [← h2, hv], ?_⟩
      intro w3 hw3
      rcases List.mem_cons.mp hw3 with rfl | hw3m
      · exact Bool.eq_false_iff.mpr hm
      · exact hall w3 hw3m

/-- A handle produced by an enumeration pass belongs to one of the
enumerated windows. -/
theorem enumPass_result_live (cfg : Bool) (nm : List Nat) (ws : List Window)
    (h : Nat) (hs : (enumWindowsPass cfg nm ws).1 = some h) :
    ws.any (fun win => win.handle == h) = true := by
  rcases hrr : enumWindowsPass cfg nm ws with ⟨r1, r2⟩
  rw [hrr] at hs
  simp only at hs
  obtain ⟨pre, win, post, hws, _, hh, _, _⟩ :=
    enumPass_some_spec cfg nm ws h r2 (by rw [hrr, hs])
  rw [hws]
  refine List.any_eq_true.mpr ⟨win, ?_, by simp [hh]⟩
  exact List.mem_append.mpr (Or.inr (List.mem_cons_self _ _))

/-- The length of a flatMap over an initial segment whose pieces all
have the same length. -/
theorem length_range_flatMap (f : Nat → List Nat) (c : Nat)
    (hf : ∀ i, (f i).length = c) : ∀ n, ((List.range n).flatMap f).length = n * c := by
  intro n
  induction n with
  | zero => simp
  | succ n ih =>
    rw [List.range_succ]
    simp only [List.flatMap_append, List.length_append, ih]
    simp [hf, Nat.succ_mul]

/-- Reading an initial segment backwards through a function is the
reverse of reading it forwards. -/
theorem range_map_rev {α : Type} (g : Nat → α) : ∀ n : Nat,
    (List.range n).map (fun i => g (n - 1 - i)) = ((List.range n).map g).reverse := by
  intro n
  induction n generalizing g with
  | zero => simp
  | succ n ih =>
    have hfun : (fun i => g (n + 1 - 1 - i)) ∘ Nat.succ = fun i => g (n - 1 - i) := by
      funext i
      simp only [Function.comp]
      congr 1
      omega
    have lhs : (List.range (n + 1)).map (fun i => g (n + 1 - 1 - i))
        = g n :: (List.map g (List.range n)).reverse := by
      rw [List.range_succ_eq_map]
      simp only [List.map_cons, List.map_map]
      rw [hfun, ih g]
      simp
    have rhs : ((List.range (n + 1)).map g).reverse
        = g n :: (List.map g (List.range n)).reverse := by
      rw [List.range_succ, List.map_append, List.reverse_append]
      simp
    rw [lhs, rhs]

/-! Claim theorems. -/

/-- C2 counterexample. The claim says the matcher compares the
registered name against the substring of the title after the last
" - " (space dash space) separator. For the title "A - b- c"
(bytes 65 32 45 32 98 45 32 99) and the registered name "b- c"
(bytes 98 45 32 99) the gate applies (the title contains " - ", the
name does not), the substring after the last " - " is exactly the
name, so the claim predicts a match, yet the code rejects: the suffix
extraction inside isLastPartEqualTo searches for the last "- " (dash
space, no preceding space required), which here starts after the
second dash and leaves only "c". -/
theorem last_segment_claim_counterexample :
    containsSpaceDashSpace [65, 32, 45, 32, 98, 45, 32, 99] = true ∧
    containsSpaceDashSpace [98, 45, 32, 99] = false ∧
    suffixAfterLastSpaceDashSpace [65, 32, 45, 32, 98, 45, 32, 99] =
      some [98, 45, 32, 99] ∧
    windowTitleMatches false [65, 32, 45, 32, 98, 45, 32, 99] [98, 45, 32, 99] = false ∧
    windowTitleMatches true [65, 32, 45, 32, 98, 45, 32, 99] [98, 45, 32, 99] = false := by
  decide

/-- C2 amended. When the title contains a " - " separator and the
registered name does not (the gate of onlyCompareLastPart), the matcher
matches iff the title splits as some prefix, then a dash (ASCII or
en dash) immediately followed by a space, then exactly the registered
name, with no later dash space pair: that is, it compares the
registered name to the substring after the last occurrence of a dash
followed by a space, where the dash need not be preceded by a space.
When the byte before that dash is a space this coincides with the
original claim. -/
theorem last_segment_rule_amended (cfg : Bool) (title nm : List Nat)
    (hpath : pathLike title = false)
    (hgate : _onlyCompareLastPart title nm = true) :
    windowTitleMatches cfg title nm = true ↔
      ∃ pre d, dashChar d = true ∧ containsDashSpace (32 :: nm) = false ∧
        title = pre ++ d :: 32 :: nm := by
  rw [windowTitleMatches, if_neg (by simp [hpath]), if_pos (by simp [hgate])]
  exact isLastPart_iff title nm

/-- C2 amended witness: the title "General - Discord" with the
registered name "Discord" matches through the last segment rule. -/
theorem last_segment_rule_amended_witness :
    windowTitleMatches false
      [71, 101, 110, 101, 114, 97, 108, 32, 45, 32, 68, 105, 115, 99, 111, 114, 100]
      [68, 105, 115, 99, 111, 114, 100] = true :=
  (last_segment_rule_amended false _ _ (by decide) (by decide)).mpr
    ⟨[71, 101, 110, 101, 114, 97, 108, 32], 45, by decide, by decide, by decide⟩

/-- C3 counterexample. The claim says a title whose second character is
a drive letter colon is matched only by exact equality. The title
"A: hi" (bytes 65 58 32 104 105) has the colon as its second character
and differs from the registered name "hi" (bytes 104 105), so the claim
predicts no match, yet in substring mode the code matches: its path
branch additionally requires the third character to be a backslash, so
this title falls through to the default substring rule. -/
theorem path_like_claim_counterexample :
    ([65, 58, 32, 104, 105] : List Nat).getD 1 0 = 58 ∧
    ([65, 58, 32, 104, 105] : List Nat) ≠ [104, 105] ∧
    windowTitleMatches false [65, 58, 32, 104, 105] [104, 105] = true := by
  decide

/-- C3 amended. When the second character of the title is a colon AND
the third is a backslash (the actual path test of the code), the
matcher matches iff the title equals the registered name in full,
whatever the configured matching mode. -/
theorem path_like_rule_amended (cfg : Bool) (title nm : List Nat)
    (h : pathLike title = true) :
    windowTitleMatches cfg title nm = true ↔ title = nm := by
  rw [windowTitleMatches, if_pos (by simp [h])]
  exact beq_iff_eq

/-- C3 amended witness: the path like title "C:\x" matches itself. -/
theorem path_like_rule_amended_witness :
    windowTitleMatches false [67, 58, 92, 120] [67, 58, 92, 120] = true :=
  (path_like_rule_amended false _ _ (by decide)).mpr rfl

/-- C4. When neither the path rule nor the last
segment rule applies, the matcher requires full equality in strict mode
and containment of the registered name as a contiguous substring of the
title otherwise. -/
theorem default_rule_matching (cfg : Bool) (title nm : List Nat)
    (hpath : pathLike title = false)
    (hgate : _onlyCompareLastPart title nm = false) :
    windowTitleMatches cfg title nm = true ↔
      (if cfg then title = nm else ∃ pre post, title = pre ++ nm ++ post) := by
  rw [windowTitleMatches, if_neg (by simp [hpath]), if_neg (by simp [hgate])]
  cases cfg with
  | true => simp
  | false =>
    simp only [if_neg (by simp : ¬False), Bool.false_eq_true, if_false]
    exact strstrB_iff nm title

/-- C4 witness: in substring mode the title "xAy" matches the name "A";
the same application in strict mode compares for full equality. -/
theorem default_rule_matching_witness :
    windowTitleMatches false [120, 65, 121] [65] = true :=
  (default_rule_matching false [120, 65, 121] [65] (by decide) (by decide)).mpr
    (by exact ⟨[120], [121], rfl⟩)

/-- C5. Out of range ids are rejected without any mutation: initWindow
outside [0,100) returns false with the globals untouched, and
getWindowHandle outside [0,1000) returns the null handle with the
globals untouched and no enumeration pass. -/
theorem out_of_range_rejected (w : World) (st : NWState) (idR idL : Int)
    (nm : Option (List Nat))
    (hR : idR < 0 ∨ idR > 99) (hL : idL < 0 ∨ idL > 999) :
    initWindow st idR nm = (false, st) ∧
    getWindowHandle w st idL = ⟨0, st, 0⟩ := by
  constructor
  · rw [initWindow, if_pos hR]
  · rw [getWindowHandle, if_pos hL]

/-- C5 witness: registration at id 100 and resolution at id 1000 are
rejected and leave the all zero globals unchanged. -/
theorem out_of_range_rejected_witness :
    initWindow emptyState 100 (some [65]) = (false, emptyState) ∧
    getWindowHandle oneWindowWorld emptyState 1000 = ⟨0, emptyState, 0⟩ :=
  out_of_range_rejected oneWindowWorld emptyState 100 1000 (some [65])
    (Or.inr (by decide)) (Or.inr (by decide))

/-- C6. When resolution of the slot returns the null handle, every
facade operation returns its documented sentinel: getWindowBounds the
rectangle with all four fields 999999999, getPixelOfWindow 999999999,
getWindowMousePos the point (999999999, 999999999), and the boolean
operations hasWindowFocus, setWindowFocus, setWindowMousePos,
closeWindow and isWindowOpen all return false. -/
theorem facade_sentinels (w : World) (st : NWState) (id : Int) (x y : Int)
    (hfail : (getWindowHandle w st id).handle = 0) :
    (getWindowBounds w st id).1 =
      (INVALID_VALUE, INVALID_VALUE, INVALID_VALUE, INVALID_VALUE) ∧
    (getPixelOfWindow w st id x y).1 = INVALID_VALUE_UL ∧
    (getWindowMousePos w st id).1 = (INVALID_VALUE, INVALID_VALUE) ∧
    (hasWindowFocus w st id).1 = false ∧
    (setWindowFocus w st id).1 = false ∧
    (setWindowMousePos w st id x y).1 = false ∧
    (closeWindow w st id).1 = false ∧
    (isWindowOpen w st id).1 = false := by
  refine ⟨?_, ?_, ?_, ?_, ?_, ?_, ?_, ?_⟩ <;>
    simp [getWindowBounds, getPixelOfWindow, getWindowMousePos, hasWindowFocus,
      setWindowFocus, setWindowMousePos, closeWindow, isWindowOpen, hfail]

/-- C6 witness: slot 0 of the all zero globals has no registered name,
so resolution fails and all sentinels are observed at a concrete call. -/
theorem facade_sentinels_witness :
    (getWindowBounds oneWindowWorld emptyState 0).1 =
      (INVALID_VALUE, INVALID_VALUE, INVALID_VALUE, INVALID_VALUE) ∧
    (getPixelOfWindow oneWindowWorld emptyState 0 3 4).1 = INVALID_VALUE_UL ∧
    (getWindowMousePos oneWindowWorld emptyState 0).1 = (INVALID_VALUE, INVALID_VALUE) ∧
    (hasWindowFocus oneWindowWorld emptyState 0).1 = false ∧
    (setWindowFocus oneWindowWorld emptyState 0).1 = false ∧
    (setWindowMousePos oneWindowWorld emptyState 0 3 4).1 = false ∧
    (closeWindow oneWindowWorld emptyState 0).1 = false ∧
    (isWindowOpen oneWindowWorld emptyState 0).1 = false :=
  facade_sentinels oneWindowWorld emptyState 0 3 4 rfl

/-- C7. For all width and height at least 1, the captured buffer has
exactly width * height * 4 bytes, four bytes per pixel and tightly
packed, and its rows come in top to bottom order: the buffer is the
concatenation of the reversed row list of the natural bottom up bitmap
storage of the same rectangle. -/
theorem capture_buffer_layout (w : World) (x y : Int) (width height : Nat)
    (hw : 1 ≤ width) (hh : 1 ≤ height) :
    (getImage w x y width height).length = width * height * 4 ∧
    getImage w x y width height =
      ((dibBottomUpRows w x y width height).reverse).flatten := by
  constructor
  · have hrow : ∀ i, (captureRow w x y width i).length = width * 4 := by
      intro i
      rw [captureRow]
      exact length_range_flatMap
        (fun col => pixBytes (w.screen (x + Int.ofNat col) (y + Int.ofNat i)))
        4 (fun j => rfl) width
    rw [getImage, length_range_flatMap _ (width * 4) hrow height]
    ring
  · have hrev := range_map_rev (fun row => captureRow w x y width row) height
    rw [getImage, dibBottomUpRows, hrev, List.reverse_reverse]
    rfl

/-- C7 witness: a one by one capture of the all black screen is the
four zero bytes of one pixel, of length 1 * 1 * 4, and equals the
reversed bottom up row list flattened. -/
theorem capture_buffer_layout_witness :
    (getImage { } 0 0 1 1).length = 1 * 1 * 4 ∧
    getImage { } 0 0 1 1 = ((dibBottomUpRows { } 0 0 1 1).reverse).flatten :=
  capture_buffer_layout { } 0 0 1 1 (by decide) (by decide)

/-- C1. For an in range slot whose cached handle is nonzero but no
longer a live window, and whose name is registered, the next
getWindowHandle never returns the stale handle: it runs exactly one
fresh enumeration pass, stores its outcome (a live match or the null
handle) back into the slot, and rotates the cached display reference to
the fresh one whenever a display was held. -/
theorem stale_handle_resolution (w : World) (st : NWState) (id : Int)
    (hStale : Nat) (nm : List Nat)
    (h0 : 0 ≤ id) (h1 : id ≤ 999)
    (hcache : (st.slots id.toNat).handle = hStale)
    (hnz : hStale ≠ 0)
    (hdead : w.isWindow hStale = false)
    (hname : (st.slots id.toNat).name = some nm) :
    (getWindowHandle w st id).handle ≠ hStale ∧
    ((getWindowHandle w st id).state.slots id.toNat).handle =
      (getWindowHandle w st id).handle ∧
    (st.mainDisplay ≠ 0 → (getWindowHandle w st id).state.mainDisplay = w.freshDisplay) ∧
    (getWindowHandle w st id).enumPasses = 1 ∧
    ((getWindowHandle w st id).handle = 0 ∨
      w.isWindow (getWindowHandle w st id).handle = true) := by
  have hrange : ¬(id < 0 ∨ id > 999) := by omega
  have hfast : ((st.slots id.toNat).handle != 0 && w.isWindow (st.slots id.toNat).handle)
      = false := by
    rw [hcache, hdead, Bool.and_false]
  have hclr : ((st.slots id.toNat).handle != 0) = true := by
    rw [hcache]
    simpa using hnz
  cases he : (enumWindowsPass st.alwaysMatchEqual nm w.windows).1 with
  | none =>
    simp only [getWindowHandle, if_neg hrange, hfast, Bool.false_eq_true, if_false,
      hname, he]
    simp only [hclr, if_true]
    refine ⟨fun habs => hnz habs.symm, by simp, ?_, trivial, Or.inl trivial⟩
    intro hdisp
    rw [if_pos hdisp]
  | some hF =>
    have hlive : w.windows.any (fun win => win.handle == hF) = true :=
      enumPass_result_live st.alwaysMatchEqual nm w.windows hF he
    have hne : hF ≠ hStale := by
      intro habs
      rw [habs] at hlive
      rw [World.isWindow] at hdead
      rw [hdead] at hlive
      cases hlive
    simp only [getWindowHandle, if_neg hrange, hfast, Bool.false_eq_true, if_false,
      hname, he]
    simp only [hclr, if_true]
    refine ⟨hne, by simp, ?_, trivial, Or.inr ?_⟩
    · intro hdisp
      rw [if_pos hdisp]
    · rw [World.isWindow]
      exact hlive

/-- C1 witness: slot 0 of staleState caches dead handle 7 and name "A";
in oneWindowWorld the next resolution runs one enumeration pass, ends
up at the live window 5, rotates the display and never yields 7. -/
theorem stale_handle_resolution_witness :
    (getWindowHandle oneWindowWorld staleState 0).handle ≠ 7 ∧
    ((getWindowHandle oneWindowWorld staleState 0).state.slots (0 : Int).toNat).handle =
      (getWindowHandle oneWindowWorld staleState 0).handle ∧
    (staleState.mainDisplay ≠ 0 →
      (getWindowHandle oneWindowWorld staleState 0).state.mainDisplay =
        oneWindowWorld.freshDisplay) ∧
    (getWindowHandle oneWindowWorld staleState 0).enumPasses = 1 ∧
    ((getWindowHandle oneWindowWorld staleState 0).handle = 0 ∨
      oneWindowWorld.isWindow (getWindowHandle oneWindowWorld staleState 0).handle = true) :=
  stale_handle_resolution oneWindowWorld staleState 0 7 [65] (by decide) (by decide)
    (by decide) (by decide) (by decide) (by decide)

/-- Resolution equation for a freshly registered slot: with a cleared
cache and a registered name, getWindowHandle runs one enumeration pass
and stores its outcome into the slot. -/
theorem resolve_fresh (w : World) (s : NWState) (id : Int) (nm : List Nat) (cfg : Bool)
    (h0 : 0 ≤ id) (h1 : id ≤ 999)
    (hslot : s.slots id.toNat = { name := some nm, handle := 0 })
    (hcfg : s.alwaysMatchEqual = cfg) :
    getWindowHandle w s id =
      (match (enumWindowsPass cfg nm w.windows).1 with
       | some hF =>
         ⟨hF,
          { s with slots := fun j => if j = id.toNat then ⟨some nm, hF⟩ else s.slots j },
          1⟩
       | none => ⟨0, s, 1⟩) := by
  subst hcfg
  have hrange : ¬(id < 0 ∨ id > 999) := by omega
  simp only [getWindowHandle, if_neg hrange, hslot]
  cases he : (enumWindowsPass s.alwaysMatchEqual nm w.windows).1 <;> simp [he]

/-- Resolution equation for a live cached handle: the fast path returns
it with no enumeration pass and no state change. -/
theorem resolve_cached_live (w : World) (s : NWState) (id : Int) (hF : Nat)
    (h0 : 0 ≤ id) (h1 : id ≤ 999)
    (hhandle : (s.slots id.toNat).handle = hF)
    (hnz : hF ≠ 0) (hlive : w.isWindow hF = true) :
    getWindowHandle w s id = ⟨hF, s, 0⟩ := by
  have hrange : ¬(id < 0 ∨ id > 999) := by omega
  have hcond : ((s.slots id.toNat).handle != 0 && w.isWindow (s.slots id.toNat).handle)
      = true := by
    rw [hhandle, hlive, Bool.and_true]
    simpa using hnz
  simp only [getWindowHandle, if_neg hrange, hcond, if_true]
  rw [hhandle]

/-- Resolution equation for a slot holding a null name and no cached
handle: getWindowHandle returns the null handle at once, without any
enumeration pass or state change. -/
theorem resolve_null_name (w : World) (s : NWState) (id : Int)
    (h0 : 0 ≤ id) (h1 : id ≤ 999)
    (hslot : s.slots id.toNat = { name := none, handle := 0 }) :
    getWindowHandle w s id = ⟨0, s, 0⟩ := by
  have hrange : ¬(id < 0 ∨ id > 999) := by omega
  simp only [getWindowHandle, if_neg hrange, hslot]
  simp

/-- Registration equation for an in range id: initWindow succeeds and
overwrites the slot with the given name pointer and a cleared handle. -/
theorem initWindow_inrange (st : NWState) (id : Int) (onm : Option (List Nat))
    (h0 : 0 ≤ id) (h1 : id ≤ 99) :
    initWindow st id onm =
      (true,
       { st with slots := fun j => if j = id.toNat then ⟨onm, 0⟩ else st.slots j }) := by
  rw [initWindow, if_neg (by omega)]

/-- C8. Registration of an in range slot with a non null name succeeds
and clears the cached handle; the first resolution afterwards runs
exactly one enumeration pass; and whenever that resolution produced a
handle that is still a live window at a later call, that later
resolution returns the same handle with zero enumeration passes. -/
theorem register_then_resolve (st : NWState) (w w2 : World) (id : Int) (nm : List Nat)
    (h0 : 0 ≤ id) (h1 : id ≤ 99) :
    (initWindow st id (some nm)).1 = true ∧
    ((initWindow st id (some nm)).2.slots id.toNat).handle = 0 ∧
    (getWindowHandle w (initWindow st id (some nm)).2 id).enumPasses = 1 ∧
    (∀ hFound : Nat,
      (getWindowHandle w (initWindow st id (some nm)).2 id).handle = hFound →
      hFound ≠ 0 →
      w2.isWindow hFound = true →
      (getWindowHandle w2 (getWindowHandle w (initWindow st id (some nm)).2 id).state id).handle
          = hFound ∧
      (getWindowHandle w2 (getWindowHandle w (initWindow st id (some nm)).2 id).state id).enumPasses
          = 0) := by
  have hini := initWindow_inrange st id (some nm) h0 h1
  rw [hini]
  have hfirst := resolve_fresh w
    ({ st with slots := fun j => if j = id.toNat then ⟨some nm, 0⟩ else st.slots j })
    id nm st.alwaysMatchEqual h0 (by omega) (by simp) rfl
  refine ⟨rfl, by simp, ?_, ?_⟩
  · rw [hfirst]
    cases (enumWindowsPass st.alwaysMatchEqual nm w.windows).1 <;> rfl
  · intro hFound heq hnz hlive
    rw [hfirst] at heq ⊢
    revert heq
    cases he : (enumWindowsPass st.alwaysMatchEqual nm w.windows).1 with
    | none =>
      intro heq
      exact absurd heq.symm hnz
    | some hF =>
      intro heq
      cases heq
      rw [resolve_cached_live w2 _ id hF h0 (by omega) (by simp) hnz hlive]
      exact ⟨rfl, rfl⟩

/-- C8 witness: registering name "A" at slot 0 of the all zero globals
and resolving in oneWindowWorld takes one enumeration pass; any found
live handle is afterwards served from the cache with zero passes. -/
theorem register_then_resolve_witness :
    (initWindow emptyState 0 (some [65])).1 = true ∧
    ((initWindow emptyState 0 (some [65])).2.slots (0 : Int).toNat).handle = 0 ∧
    (getWindowHandle oneWindowWorld (initWindow emptyState 0 (some [65])).2 0).enumPasses = 1 ∧
    (∀ hFound : Nat,
      (getWindowHandle oneWindowWorld (initWindow emptyState 0 (some [65])).2 0).handle
          = hFound →
      hFound ≠ 0 →
      oneWindowWorld.isWindow hFound = true →
      (getWindowHandle oneWindowWorld
          (getWindowHandle oneWindowWorld (initWindow emptyState 0 (some [65])).2 0).state
          0).handle = hFound ∧
      (getWindowHandle oneWindowWorld
          (getWindowHandle oneWindowWorld (initWindow emptyState 0 (some [65])).2 0).state
          0).enumPasses = 0) :=
  register_then_resolve emptyState oneWindowWorld oneWindowWorld 0 [65]
    (by decide) (by decide)

/-- C9. One enumeration pass returns the handle of the first window in
enumeration order that passes the filter (title longer than 2, visible)
and the matching policy, visiting exactly the windows up to and
including it (the enumeration short circuits there); windows failing
the filter or the policy are passed over, and a pass that returns
nothing visited every window, none of which qualified. -/
theorem enumeration_first_match (cfg : Bool) (nm : List Nat) (ws : List Window) :
    (∀ h visited, enumWindowsPass cfg nm ws = (some h, visited) →
      ∃ pre win post, ws = pre ++ win :: post ∧ visited = pre ++ [win] ∧
        win.handle = h ∧ windowMatched cfg nm win = true ∧
        ∀ w2 ∈ pre, windowMatched cfg nm w2 = false) ∧
    (∀ visited, enumWindowsPass cfg nm ws = (none, visited) →
      visited = ws ∧ ∀ w2 ∈ ws, windowMatched cfg nm w2 = false) :=
  ⟨enumPass_some_spec cfg nm ws, enumPass_none_spec cfg nm ws⟩

/-- C9 witness: with name "A" in substring mode, a pass over a short
titled window, a matching window 5 and a later matching window 6 stops
at window 5, visits only the first two windows, and the skipped first
window fails the qualification. -/
theorem enumeration_first_match_witness :
    ∃ pre win post,
      ([⟨9, [66, 66], true⟩, ⟨5, [65, 65, 65], true⟩, ⟨6, [65, 65, 65], true⟩] : List Window)
        = pre ++ win :: post ∧
      [(⟨9, [66, 66], true⟩ : Window), ⟨5, [65, 65, 65], true⟩] = pre ++ [win] ∧
      win.handle = 5 ∧ windowMatched false [65] win = true ∧
      ∀ w2 ∈ pre, windowMatched false [65] w2 = false :=
  (enumeration_first_match false [65]
      [⟨9, [66, 66], true⟩, ⟨5, [65, 65, 65], true⟩, ⟨6, [65, 65, 65], true⟩]).1
    5 [⟨9, [66, 66], true⟩, ⟨5, [65, 65, 65], true⟩] (by decide)

/-- C10. Registering an in range slot with a null name pointer succeeds,
stores the null name with a cleared cache, leaving the slot equal to a
never registered one, and any subsequent resolution returns the null
handle with no enumeration pass and no state change. -/
theorem null_name_registration (st : NWState) (w : World) (id : Int)
    (h0 : 0 ≤ id) (h1 : id ≤ 99) :
    (initWindow st id none).1 = true ∧
    (initWindow st id none).2.slots id.toNat = { name := none, handle := 0 } ∧
    getWindowHandle w (initWindow st id none).2 id =
      ⟨0, (initWindow st id none).2, 0⟩ := by
  have hini := initWindow_inrange st id none h0 h1
  rw [hini]
  exact ⟨rfl, by simp, resolve_null_name w _ id h0 (by omega) (by simp)⟩

/-- C10 witness: a null name registration at slot 0 of the all zero
globals, then a resolution in oneWindowWorld. -/
theorem null_name_registration_witness :
    (initWindow emptyState 0 none).1 = true ∧
    (initWindow emptyState 0 none).2.slots (0 : Int).toNat = { name := none, handle := 0 } ∧
    getWindowHandle oneWindowWorld (initWindow emptyState 0 none).2 0 =
      ⟨0, (initWindow emptyState 0 none).2, 0⟩ :=
  null_name_registration emptyState oneWindowWorld 0 (by decide) (by decide)
